import Mathlib

/-!
Shallow embedding of the machine-state transition engine of the olus-rust
code generator, and theorems settling the specification claims.

Sources embedded:
- src/codegen/src/machine/value.rs       (enum Value)
- src/codegen/src/machine/state.rs       (struct State, is_valid, satisfies)
- src/codegen/src/machine/transition.rs  (enum Transition, applies, cost,
                                          size, time, assemble, resolve_read)
- src/codegen/src/machine/optimizer.rs   (register_set_cost, min_distance)
- src/codegen/src/allocator.rs           (initial_ram, Bump)

Conventions: u64/usize become Nat, isize becomes Int, Vec becomes List.
The Rust `Allocation` newtype over `Vec<Value>` is inlined as `List Value`.
Functions that can panic in Rust return Option, with `none` for the panic.
Machine-code bytes are modelled as `List Nat` with each element < 256;
instruction encodings follow the dynasm output for the instructions named
in the source (for dynamically chosen registers dynasm always emits a REX
prefix and, for dynamic base registers in memory operands, a SIB byte and
a 32-bit displacement).
-/

namespace Machine

/-- Values held in registers, flags and allocation slots
(src/codegen/src/machine/value.rs, `enum Value`). -/
inductive Value where
  | Unspecified : Value
  | Literal : Nat → Value
  | Symbol : Nat → Value
  | Reference : Nat → Int → Value
deriving DecidableEq

/-- Embeds `Value::is_specified`. -/
def Value.is_specified (v : Value) : Bool := v ≠ Value.Unspecified

/-- The abstract machine state (src/codegen/src/machine/state.rs,
`struct State`): 16 registers, 7 flags, and a vector of allocations.
The Rust arrays have fixed lengths 16 and 7; here they are lists and the
length facts are carried as hypotheses where needed. -/
structure State where
  registers : List Value
  flags : List Value
  allocations : List (List Value)
deriving DecidableEq

/-- Rust's `state.registers[i]` (safe whenever `i < 16` was checked). -/
def State.regD (s : State) (i : Nat) : Value := s.registers.getD i Value.Unspecified

/-- Whether a value's Reference index (if any) is in range for `n`
allocations; the per-value content of the first scan of `State::is_valid`. -/
def valRefOk (n : Nat) (v : Value) : Bool :=
  match v with
  | Value.Reference i _ => decide (i < n)
  | _ => true

/-- Every Reference in registers and allocation slots indexes an existing
allocation (the `seen.get_mut` range checks of `State::is_valid`). -/
def State.refs_in_range (s : State) : Bool :=
  s.registers.all (valRefOk s.allocations.length) &&
    s.allocations.all (fun a => a.all (valRefOk s.allocations.length))

/-- Whether the value is a Reference to allocation `i`. -/
def isRefTo (i : Nat) (v : Value) : Bool :=
  match v with
  | Value.Reference j _ => decide (j = i)
  | _ => false

/-- Allocation `i` is referenced from some register or some allocation slot
(the `seen.not_all()` check of `State::is_valid`: the bit for `i` was set). -/
def State.referenced (s : State) (i : Nat) : Bool :=
  s.registers.any (isRefTo i) || s.allocations.any (fun a => a.any (isRefTo i))

/-- No allocation is orphaned. -/
def State.no_orphans (s : State) : Bool :=
  (List.range s.allocations.length).all s.referenced

/-- A flag slot may hold only Unspecified, a Symbol, or a boolean literal. -/
def flagOk (v : Value) : Bool :=
  match v with
  | Value.Unspecified => true
  | Value.Symbol _ => true
  | Value.Literal n => decide (n ≤ 1)
  | _ => false

/-- The flags check of `State::is_valid`. -/
def State.flags_ok (s : State) : Bool := s.flags.all flagOk

/-- Embeds `State::is_valid` (src/codegen/src/machine/state.rs lines 66-105):
all References in range, no orphaned allocation, flags restricted. -/
def State.is_valid (s : State) : Bool :=
  s.refs_in_range && s.no_orphans && s.flags_ok

/-- Embeds `State::resolve_read` (src/codegen/src/machine/transition.rs lines
49-61): resolve register `reg` as a Reference, add `offset` to its offset,
and fetch the allocation slot; `none` where the Rust returns `None`. -/
def State.resolve_read (s : State) (reg : Nat) (offset : Int) : Option Value :=
  match s.registers.get? reg with
  | some (Value.Reference index roffset) =>
    match s.allocations.get? index with
    | some alloc =>
      if offset + roffset < 0 then none
      else alloc.get? (offset + roffset).toNat
    | none => none
  | _ => none

/-- Insertion into a list used with set semantics, mirroring
`HashSet::insert`. -/
def insertPair (p : Nat × Nat) (l : List (Nat × Nat)) : List (Nat × Nat) :=
  if p ∈ l then l else p :: l

/-- The inner `valsat` closure of `State::satisfies`
(src/codegen/src/machine/state.rs lines 144-164): whether `ours` satisfies
`goal` at one slot, together with the (state-index, goal-index) pair pushed
onto `reference_checks` when both are References with equal offsets. -/
def valsat (ours goal : Value) : Bool × List (Nat × Nat) :=
  match goal with
  | Value.Unspecified => (true, [])
  | Value.Reference goal_index goal_offset =>
    match ours with
    | Value.Reference our_index our_offset =>
      if our_offset = goal_offset then (true, [(our_index, goal_index)])
      else (false, [])
    | _ => (false, [])
  | v => (decide (ours = v), [])

/-- The register-and-flag phase of `State::satisfies`: `valsat` each slot
pair, accumulating the pushed reference checks; `none` is the early `false`
return of the `.all` call. -/
def checkSlots : List (Value × Value) → List (Nat × Nat) →
    Option (List (Nat × Nat))
  | [], acc => some acc
  | (a, b) :: rest, acc =>
    match valsat a b with
    | (true, ins) => checkSlots rest (ins.foldl (fun l p => insertPair p l) acc)
    | (false, _) => none

/-- One allocation pair of the worklist phase of `State::satisfies`:
`valsat` the zipped slots, accumulating pushed reference checks; the Bool
is `false` on the first mismatching slot. -/
def checkAlloc : List (Value × Value) → List (Nat × Nat) →
    Bool × List (Nat × Nat)
  | [], acc => (true, acc)
  | (a, b) :: rest, acc =>
    match valsat a b with
    | (true, ins) => checkAlloc rest (ins.foldl (fun l p => insertPair p l) acc)
    | (false, _) => (false, acc)

/-- One pass over the drained `to_check` set of `State::satisfies`: compare
each recorded allocation pair, collect newly pushed reference checks into
`rc`, record the processed pairs in `checked`. `none` models the panic of
`self.allocations[our_index]` on an out-of-range index; `some (false, ..)`
is the early `return false`. -/
def processChecks (s g : State) : List (Nat × Nat) → List (Nat × Nat) →
    List (Nat × Nat) → Option (Bool × List (Nat × Nat) × List (Nat × Nat))
  | [], rc, checked => some (true, rc, checked)
  | (our_index, their_index) :: rest, rc, checked =>
    match s.allocations.get? our_index, g.allocations.get? their_index with
    | some ours, some theirs =>
      if ours.length = theirs.length then
        match checkAlloc (ours.zip theirs) rc with
        | (true, rc') =>
          processChecks s g rest rc' (insertPair (our_index, their_index) checked)
        | (false, rc') => some (false, rc', checked)
      else some (false, rc, checked)
    | _, _ => none

/-- The `while !done` worklist loop of `State::satisfies`
(src/codegen/src/machine/state.rs lines 186-213): drain the pending
reference checks, compare the recorded allocation pairs, subtract the
already-checked pairs, and repeat. `fuel` bounds the iterations; the
initial fuel chosen in `State.satisfies` below always suffices (each
iteration strictly grows `checked`, which never exceeds all index pairs),
so `none` from fuel exhaustion never occurs on the states the Rust loop
terminates on. -/
def checkLoop (s g : State) : Nat → List (Nat × Nat) → List (Nat × Nat) →
    Option Bool
  | fuel, rc, checked =>
    if rc.isEmpty then some true
    else
      match fuel with
      | 0 => none
      | fuel + 1 =>
        match processChecks s g rc [] checked with
        | none => none
        | some (false, _, _) => some false
        | some (true, rc', checked') =>
          checkLoop s g fuel (rc'.filter (fun p => decide (p ∉ checked')))
            checked'

/-- Embeds `State::satisfies` (src/codegen/src/machine/state.rs lines 143-216):
a goal is satisfied when all specified values are in place; reference
pairs are compared through the cycle-tolerant worklist. -/
def State.satisfies (s g : State) : Option Bool :=
  match checkSlots ((s.registers ++ s.flags).zip (g.registers ++ g.flags)) [] with
  | none => some false
  | some rc =>
    checkLoop s g (s.allocations.length * g.allocations.length + 1) rc []

/-- Embeds `Transition` (src/codegen/src/machine/transition.rs): the seven
primitive instructions. Registers are `u8` in the source, here Nat. -/
inductive Transition where
  | Set : Nat → Nat → Transition
  | Copy : Nat → Nat → Transition
  | Swap : Nat → Nat → Transition
  | Read : Nat → Nat → Int → Transition
  | Write : Nat → Int → Nat → Transition
  | Alloc : Nat → Nat → Transition
  | Drop : Nat → Transition
deriving DecidableEq

/-- Embeds `State::valid_reg`. -/
def valid_reg (reg : Nat) : Bool := decide (reg < 16)

/-- Embeds `Transition::applies` (src/codegen/src/machine/transition.rs lines
65-113), including the Write arm exactly as written in the source: it
checks `valid_reg(source)`, that register `source` is specified, and that
`resolve_read(source, offset)` succeeds — it never inspects `dest`. -/
def Transition.applies (t : Transition) (s : State) : Bool :=
  match t with
  | Transition.Set dest _ => valid_reg dest
  | Transition.Copy dest source =>
    valid_reg dest && valid_reg source && (s.regD source).is_specified
  | Transition.Swap dest source =>
    valid_reg dest && valid_reg source &&
      ((s.regD dest).is_specified || (s.regD source).is_specified)
  | Transition.Read dest source offset =>
    valid_reg dest &&
      (match s.resolve_read source offset with
       | some val => val.is_specified
       | none => false)
  | Transition.Write _ offset source =>
    valid_reg source && (s.regD source).is_specified &&
      (s.resolve_read source offset).isSome
  | Transition.Alloc dest size => valid_reg dest && decide (0 < size)
  | Transition.Drop dest =>
    valid_reg dest &&
      (match s.regD dest with
       | Value.Reference _ _ => true
       | _ => false)

/-- Embeds `Transition::time` (src/codegen/src/machine/transition.rs lines
137-151): the per-variant cycle estimate. It depends only on the variant,
never on the operands. -/
def Transition.time : Transition → Nat
  | Transition.Set _ _ => 3
  | Transition.Copy _ _ => 3
  | Transition.Swap _ _ => 6
  | Transition.Read _ _ _ => 6
  | Transition.Write _ _ _ => 12
  | Transition.Alloc _ _ => 24
  | Transition.Drop _ => 24

/-- Little-endian bytes of a 32-bit immediate. -/
def le32 (v : Nat) : List Nat :=
  [v % 256, v / 256 % 256, v / 65536 % 256, v / 16777216 % 256]

/-- Little-endian bytes of a 64-bit immediate. -/
def le64 (v : Nat) : List Nat := le32 (v % 4294967296) ++ le32 (v / 4294967296)

/-- Value of a little-endian byte list. -/
def leVal (bytes : List Nat) : Nat := bytes.foldr (fun b acc => b + 256 * acc) 0

/-- REX prefix with the W bit `w` and the extension bits for the
register field operand `r` and the r/m or opcode operand `b`. -/
def rexRB (w r b : Nat) : Nat :=
  64 + w * 8 + (if 8 ≤ r then 4 else 0) + (if 8 ≤ b then 1 else 0)

/-- ModRM byte for a register-to-register form. -/
def modrmReg (reg rm : Nat) : Nat := 192 + reg % 8 * 8 + rm % 8

/-- Embeds `initial_ram` (src/codegen/src/allocator.rs lines 4-12): the initial
RAM image is a single qword holding `ram_start + 4` — the comment in the
source reads "First 4 bytes are free memory pointer". -/
def initial_ram (ram_start : Nat) : List Nat :=
  le64 ((ram_start + 4) % 18446744073709551616)

/-- Bytes of `mov Rd(reg), DWORD [ram_start]`: the head-load instruction of
`Bump::alloc` (src/codegen/src/allocator.rs). -/
def bumpLoad (ram_start reg : Nat) : List Nat :=
  [64 + (if 8 ≤ reg then 4 else 0), 139, 4 + reg % 8 * 8, 37] ++ le32 ram_start

/-- Bytes of `add DWORD [ram_start], BYTE size`: the head-increment
instruction of `Bump::alloc` for sizes that fit a signed byte. -/
def bumpAdd8 (ram_start size : Nat) : List Nat :=
  [131, 4, 37] ++ le32 ram_start ++ [size % 256]

/-- Bytes of `add DWORD [ram_start], DWORD size`: the head-increment
instruction of `Bump::alloc` for larger sizes. -/
def bumpAdd32 (ram_start size : Nat) : List Nat :=
  [129, 4, 37] ++ le32 ram_start ++ le32 size

/-- Embeds `Bump::alloc` (src/codegen/src/allocator.rs lines 23-37): emit the
head-load and head-increment instructions, or panic (`none`) when the
requested size exceeds `u32::max_value()`. -/
def Bump.alloc (ram_start reg size : Nat) : Option (List Nat) :=
  if size ≤ 127 then some (bumpLoad ram_start reg ++ bumpAdd8 ram_start size)
  else if size ≤ 4294967295 then
    some (bumpLoad ram_start reg ++ bumpAdd32 ram_start size)
  else none

/-- Embeds `Bump::drop` (src/codegen/src/allocator.rs lines 40-42): emits nothing. -/
def Bump.drop (_reg : Nat) : List Nat := []

/-- Embeds `Transition::assemble` (src/codegen/src/machine/transition.rs lines
156-236) as the byte sequence the dynasm invocations produce; `none` models
the panic of an oversized `Alloc`. -/
def Transition.assemble : Transition → Option (List Nat)
  | Transition.Set dest value =>
    if value = 0 then
      if dest < 8 then some [49, modrmReg dest dest]
      else some [69, 49, modrmReg dest dest]
    else if value ≤ 4294967295 then
      if dest < 8 then some ((184 + dest) :: le32 value)
      else some (65 :: (184 + dest % 8) :: le32 value)
    else some (rexRB 1 0 dest :: (184 + dest % 8) :: le64 value)
  | Transition.Copy dest source =>
    if dest = source then some []
    else some [rexRB 1 source dest, 137, modrmReg source dest]
  | Transition.Swap dest source =>
    if dest = source then some []
    else some [rexRB 1 source dest, 135, modrmReg source dest]
  | Transition.Read dest source offset =>
    some ([rexRB 1 dest source, 139, 132 + dest % 8 * 8, 32 + source % 8] ++
      le32 ((8 * offset).emod 4294967296).toNat)
  | Transition.Write dest offset source =>
    some ([rexRB 1 source dest, 137, 132 + source % 8 * 8, 32 + dest % 8] ++
      le32 ((8 * offset).emod 4294967296).toNat)
  | Transition.Alloc dest size => Bump.alloc 12288 dest size
  | Transition.Drop dest => some (Bump.drop dest)

/-- Embeds `Transition::size` (src/codegen/src/machine/transition.rs lines
127-131): run the emitter against the offset-only sink and report the byte
count. -/
def Transition.size (t : Transition) : Option Nat := t.assemble.map List.length

/-- Embeds `Transition::cost` (src/codegen/src/machine/transition.rs lines
122-124): `self.time() * 100 + self.size()`. -/
def Transition.cost (t : Transition) : Option Nat :=
  t.size.map (fun s => t.time * 100 + s)

/-- Rust's `usize::max_value()` on the 64-bit target. -/
def usizeMax : Nat := 18446744073709551615

/-- The values a `StateIterator` visits: registers, then flags, then every
allocation slot (src/codegen/src/machine/state.rs, `IntoIterator`). -/
def stateValues (s : State) : List Value :=
  s.registers ++ s.flags ++ s.allocations.flatten

/-- Embeds `State::symbols`: the Symbols reachable from any slot (the Rust
returns them as a `HashSet`; here the list stands for that set). -/
def State.symbols (s : State) : List Nat :=
  (stateValues s).filterMap fun v =>
    match v with
    | Value.Symbol n => some n
    | _ => none

/-- Embeds `State::reachable` (src/codegen/src/machine/state.rs lines 134-140):
the goal's symbol set is a subset of ours. -/
def State.reachable (s g : State) : Bool :=
  g.symbols.all fun x => decide (x ∈ s.symbols)

/-- Embeds `State::register_set_cost` (src/codegen/src/machine/optimizer.rs lines
71-164): minimum cost of placing `value` into the (optional) destination
register given the current state. `none` models the `assert_ne!` panic
when no strategy produced a finite cost. -/
def State.register_set_cost (s : State) (dest : Option Nat) (value : Value) :
    Option Nat := do
  if value.is_specified = false then return 0
  match value with
  | Value.Reference _ _ =>
    let copy_cost ← (Transition.Copy 0 0).cost
    let swap_cost ← (Transition.Swap 0 0).cost
    match dest with
    | some d =>
      match s.regD d with
      | Value.Reference _ _ => return 0
      | _ => return min copy_cost swap_cost
    | none => return min copy_cost swap_cost
  | _ => do
    let c ← (List.range 16).foldlM
      (fun (c : Nat) source => do
        if value = s.regD source then
          let cand ← (match dest with
            | none => pure 0
            | some d =>
              if d = source then pure 0
              else do
                let cc ← (Transition.Copy d source).cost
                let sc ← (Transition.Swap d source).cost
                pure (min cc sc))
          pure (min c cand)
        else pure c)
      usizeMax
    if c = 0 then return 0
    let d := dest.getD 0
    let c ← (match value with
      | Value.Literal v => do
        let sc ← (Transition.Set d v).cost
        pure (min c sc)
      | _ => pure c)
    let read_cost ← (Transition.Read d 0 0).cost
    if c ≤ read_cost then return c
    if s.allocations.any (fun a => a.any fun av => decide (av = value)) then
      return read_cost
    if c = usizeMax then none else return c

/-- Embeds `State::min_distance` (src/codegen/src/machine/optimizer.rs lines
166-261): the heuristic — sum of per-register set costs plus a
per-goal-allocation term (fresh construction with one Copy/Swap refunded,
or cheapest in-place change of a same-length existing allocation). -/
def State.min_distance (s g : State) : Option Nat := do
  if s.reachable g = false then return usizeMax
  let reg_cost ← (s.registers.zip g.registers).enum.foldlM
    (fun (acc : Nat) p => do
      let c ← s.register_set_cost (some p.1) p.2.2
      pure (acc + c))
    0
  let write_cost ← (Transition.Write 0 0 0).cost
  let total ← g.allocations.foldlM
    (fun (acc : Nat) galloc => do
      let ac ← (Transition.Alloc 0 galloc.length).cost
      let cc ← (Transition.Copy 0 0).cost
      let sc ← (Transition.Swap 0 0).cost
      let base := ac - min cc sc
      let fresh ← galloc.foldlM
        (fun (a : Nat) gv => do
          if gv.is_specified then
            let rc ← s.register_set_cost none gv
            pure (a + write_cost + rc)
          else pure a)
        base
      let alloc_cost ← s.allocations.foldlM
        (fun (b : Nat) oalloc => do
          if oalloc.length = galloc.length then do
            let change ← (oalloc.zip galloc).foldlM
              (fun (a : Nat) p => do
                if p.2.is_specified = false ∨ p.1 = p.2 then pure a
                else do
                  let rc ← s.register_set_cost none p.2
                  pure (a + write_cost + rc))
              0
            pure (min b change)
          else pure b)
        fresh
      pure (acc + alloc_cost))
    reg_cost
  return total

/-- Rewriting of a Value by `Drop`'s swap-remove of allocation `i` when the
last allocation index was `last`: References to the dropped allocation
become Unspecified, stale indices pointing at the moved last allocation are
rewritten to `i`. -/
def dropRewrite (i last : Nat) (v : Value) : Value :=
  match v with
  | Value.Reference j off =>
    if j = i then Value.Unspecified
    else if j = last then Value.Reference i off
    else Value.Reference j off
  | w => w

/-- Modelled from the spec: `Transition::apply` is `unimplemented!()` in
src/codegen/src/machine/transition.rs lines 115-117, so the effect of each
transition is taken from the spec's transition-algebra table (§4.2) and the
Drop lifecycle (§3): Set writes a Literal, Copy copies a register, Swap
exchanges two registers, Read copies the resolved slot into a register,
Write stores a register into the slot resolved through `dest`, Alloc
appends an allocation of Unspecified slots and drops a Reference to it in
`dest`, and Drop swap-removes the referenced allocation rewriting the
surviving References. `none` models a panic/undefined effect (index out of
bounds or an unresolvable Read/Write). -/
def Transition.applyM (t : Transition) (s : State) : Option State :=
  match t with
  | Transition.Set dest value =>
    if dest < s.registers.length then
      some { s with registers := s.registers.set dest (Value.Literal value) }
    else none
  | Transition.Copy dest source =>
    match s.registers.get? source with
    | some v =>
      if dest < s.registers.length then
        some { s with registers := s.registers.set dest v }
      else none
    | none => none
  | Transition.Swap dest source =>
    match s.registers.get? dest, s.registers.get? source with
    | some vd, some vs =>
      some { s with registers := (s.registers.set dest vs).set source vd }
    | _, _ => none
  | Transition.Read dest source offset =>
    match s.resolve_read source offset with
    | some v =>
      if dest < s.registers.length then
        some { s with registers := s.registers.set dest v }
      else none
    | none => none
  | Transition.Write dest offset source =>
    match s.registers.get? source, s.registers.get? dest with
    | some vs, some (Value.Reference index roffset) =>
      match s.allocations.get? index with
      | some alloc =>
        if offset + roffset < 0 then none
        else if (offset + roffset).toNat < alloc.length then
          some { s with
            allocations :=
              s.allocations.set index (alloc.set (offset + roffset).toNat vs) }
        else none
      | none => none
    | _, _ => none
  | Transition.Alloc dest size =>
    if dest < s.registers.length then
      some { s with
        registers :=
          s.registers.set dest (Value.Reference s.allocations.length 0),
        allocations := s.allocations ++ [List.replicate size Value.Unspecified] }
    else none
  | Transition.Drop dest =>
    match s.registers.get? dest with
    | some (Value.Reference i _) =>
      match s.allocations.get? (s.allocations.length - 1) with
      | some lastAlloc =>
        if i < s.allocations.length then
          some
            { registers :=
                s.registers.map (dropRewrite i (s.allocations.length - 1)),
              flags := s.flags.map (dropRewrite i (s.allocations.length - 1)),
              allocations :=
                ((s.allocations.set i lastAlloc).dropLast).map fun a =>
                  a.map (dropRewrite i (s.allocations.length - 1)) }
        else none
      | none => none
    | _ => none

/-- Whether a value is a Reference. -/
def isRef (v : Value) : Bool :=
  match v with
  | Value.Reference _ _ => true
  | _ => false

/-- All pairs of a worklist are diagonal with index below `n`. -/
def DiagOk (n : Nat) (l : List (Nat × Nat)) : Prop :=
  ∀ p ∈ l, p.1 = p.2 ∧ p.1 < n

lemma le32_length (v : Nat) : (le32 v).length = 4 := rfl

lemma le64_length (v : Nat) : (le64 v).length = 8 := by
  simp [le64, le32]

/-- Every emitted transition is shorter than 100 bytes. -/
lemma size_bound (t : Transition) (sz : Nat) (h : t.size = some sz) : sz < 100 := by
  cases t with
  | Set d v =>
    simp only [Transition.size, Transition.assemble] at h
    split_ifs at h <;>
      simp_all [le32_length, le64_length, rexRB, modrmReg] <;> omega
  | Copy d s =>
    simp only [Transition.size, Transition.assemble] at h
    split_ifs at h <;> simp_all <;> omega
  | Swap d s =>
    simp only [Transition.size, Transition.assemble] at h
    split_ifs at h <;> simp_all <;> omega
  | Read d s o =>
    simp only [Transition.size, Transition.assemble] at h
    simp_all [le32_length]
    omega
  | Write d o s =>
    simp only [Transition.size, Transition.assemble] at h
    simp_all [le32_length]
    omega
  | Alloc d sz' =>
    simp only [Transition.size, Transition.assemble, Bump.alloc] at h
    split_ifs at h <;>
      simp_all [bumpLoad, bumpAdd8, bumpAdd32, le32_length] <;> omega
  | Drop d =>
    simp only [Transition.size, Transition.assemble, Bump.drop] at h
    simp_all
    omega

/-- C1 counterexample: for `Set {dest: 0, value: 0}` the code computes
`cost = 302` (`time 3 · 100 + size 2`), not `size · 10 000 + cycles =
20 003` as the claim states. -/
theorem cost_formula_counterexample :
    Transition.cost (Transition.Set 0 0) = some 302 ∧
      Transition.size (Transition.Set 0 0) = some 2 ∧
      Transition.time (Transition.Set 0 0) = 3 ∧
      302 ≠ 2 * 10000 + 3 := by
  decide

/-- C1 (amended): for every transition `t` whose emission does not panic,
`cost(t) = cycles(t) · 100 + size(t)`; the cycle estimate dominates and the
encoded byte size (always below 100) only breaks ties between transitions
of equal cycle estimate. -/
theorem cost_is_cycles_dominant :
    (∀ (t : Transition) (sz : Nat), t.size = some sz →
        t.cost = some (t.time * 100 + sz) ∧ sz < 100) ∧
      (∀ (t₁ t₂ : Transition) (c₁ c₂ : Nat), t₁.cost = some c₁ →
        t₂.cost = some c₂ → t₁.time < t₂.time → c₁ < c₂) := by
  constructor
  · intro t sz h
    exact ⟨by simp [Transition.cost, h], size_bound t sz h⟩
  · intro t₁ t₂ c₁ c₂ h₁ h₂ hlt
    rcases Option.map_eq_some'.mp h₁ with ⟨s₁, hs₁, hc₁⟩
    rcases Option.map_eq_some'.mp h₂ with ⟨s₂, hs₂, hc₂⟩
    have b₁ := size_bound t₁ s₁ hs₁
    omega

/-- C1 witness: the amended formula instantiated at `Set {0, 0}` (cost 302)
and at the pair `Set {0, 0}` versus `Swap {0, 1}` (302 < 603 because 3 < 6
cycles). -/
theorem cost_is_cycles_dominant_witness :
    Transition.cost (Transition.Set 0 0) = some 302 ∧ (302 : Nat) < 603 :=
  ⟨by simpa using (cost_is_cycles_dominant.1 (Transition.Set 0 0) 2 (by decide)).1,
    cost_is_cycles_dominant.2 (Transition.Set 0 0) (Transition.Swap 0 1) 302 603
      (by decide) (by decide) (by decide)⟩

/-- C6: the emitted size of `Set` at the boundary values 0, 1, 2³²−1, 2³²
and 2⁶⁴−1 is 2, 5, 5, 10, 10 bytes for destinations 0-7 and 3, 6, 6, 10, 10
bytes for destinations 8-15. -/
theorem set_size_boundaries :
    ∀ d : Fin 16,
      Transition.size (Transition.Set d 0) =
          some (if (d : Nat) < 8 then 2 else 3) ∧
        Transition.size (Transition.Set d 1) =
          some (if (d : Nat) < 8 then 5 else 6) ∧
        Transition.size (Transition.Set d 4294967295) =
          some (if (d : Nat) < 8 then 5 else 6) ∧
        Transition.size (Transition.Set d 4294967296) = some 10 ∧
        Transition.size (Transition.Set d 18446744073709551615) = some 10 := by
  decide

/-- C7 counterexample: the cycle estimate of a `Copy` of a register with
itself is 3, not 0; `Transition::time` never inspects the operands. -/
theorem self_copy_time_counterexample :
    Transition.time (Transition.Copy 0 0) = 3 ∧ (3 : Nat) ≠ 0 := by
  decide

/-- C7 (amended): the per-variant cycle estimates are Set 3, Copy 3,
Swap 6, Read 6, Write 12, Alloc 24, Drop 24 regardless of the operands; a
Copy or Swap whose destination equals its source emits zero bytes (so its
byte size is 0), but its cycle estimate is still 3 respectively 6. -/
theorem cycle_estimates :
    ∀ (d s v sz : Nat) (off : Int),
      Transition.time (Transition.Set d v) = 3 ∧
        Transition.time (Transition.Copy d s) = 3 ∧
        Transition.time (Transition.Swap d s) = 6 ∧
        Transition.time (Transition.Read d s off) = 6 ∧
        Transition.time (Transition.Write d off s) = 12 ∧
        Transition.time (Transition.Alloc d sz) = 24 ∧
        Transition.time (Transition.Drop d) = 24 ∧
        Transition.size (Transition.Copy d d) = some 0 ∧
        Transition.size (Transition.Swap d d) = some 0 := by
  intro d s v sz off
  refine ⟨rfl, rfl, rfl, rfl, rfl, rfl, rfl, ?_, ?_⟩ <;>
    simp [Transition.size, Transition.assemble]

/-- C8 counterexample: `initial_ram` initializes the free-pointer qword at
`HEAP_HEAD = 0x3000` to `0x3004 = HEAP_HEAD + 4`, not `HEAP_HEAD + 8`. -/
theorem initial_ram_counterexample :
    leVal (initial_ram 12288) = 12292 ∧ 12292 ≠ 12288 + 8 := by
  decide

lemma leVal_le64 (v : Nat) (h : v < 18446744073709551616) :
    leVal (le64 v) = v := by
  simp only [le64, le32, leVal, List.foldr, List.append_eq, List.cons_append,
    List.nil_append]
  omega

/-- C8 (amended): the bump allocator's free-pointer word at `HEAP_HEAD` is
initialized to `HEAP_HEAD + 4` — four bytes past the head word's fixed RAM
address. The head word itself is a 4-byte word (`Bump::alloc` accesses it
with DWORD operations), so the first allocation still does not alias it. -/
theorem initial_ram_head_plus_four :
    ∀ ram_start : Nat, ram_start + 4 < 18446744073709551616 →
      leVal (initial_ram ram_start) = ram_start + 4 ∧
        (initial_ram ram_start).length = 8 := by
  intro r h
  refine ⟨?_, by simp [initial_ram, le64_length]⟩
  unfold initial_ram
  rw [Nat.mod_eq_of_lt h]
  exact leVal_le64 _ h

/-- C8 witness: the amended statement at the real RAM start 0x3000. -/
theorem initial_ram_head_plus_four_witness :
    leVal (initial_ram 12288) = 12288 + 4 ∧ (initial_ram 12288).length = 8 :=
  initial_ram_head_plus_four 12288 (by decide)

/-- C9: assembling `Alloc` fails fatally (the bump allocator panics and no
bytes are produced) if and only if the requested size exceeds 2³²−1; for
every size up to 2³²−1 it emits the head-load instruction followed by the
head-increment instruction. -/
theorem alloc_fatal_iff :
    ∀ (d sz : Nat),
      (Transition.assemble (Transition.Alloc d sz) = none ↔ 4294967295 < sz) ∧
        (sz ≤ 4294967295 →
          Transition.assemble (Transition.Alloc d sz) =
            some (bumpLoad 12288 d ++
              (if sz ≤ 127 then bumpAdd8 12288 sz else bumpAdd32 12288 sz))) := by
  intro d sz
  constructor
  · simp only [Transition.assemble, Bump.alloc]
    split_ifs with h1 h2 <;> simp <;> omega
  · intro h
    simp only [Transition.assemble, Bump.alloc]
    split_ifs with h1 <;> simp_all

/-- C9 witness: an 8-byte allocation emits the short-immediate pair; a
5-gigabyte allocation is rejected. -/
theorem alloc_fatal_iff_witness :
    Transition.assemble (Transition.Alloc 0 8) =
        some (bumpLoad 12288 0 ++ bumpAdd8 12288 8) ∧
      Transition.assemble (Transition.Alloc 0 5000000000) = none :=
  ⟨by simpa using (alloc_fatal_iff 0 8).2 (by norm_num),
    (alloc_fatal_iff 0 5000000000).1.mpr (by norm_num)⟩

lemma insertPair_mem {p q : Nat × Nat} {l : List (Nat × Nat)}
    (h : q ∈ insertPair p l) : q = p ∨ q ∈ l := by
  unfold insertPair at h
  split_ifs at h with hp
  · exact Or.inr h
  · rcases List.mem_cons.mp h with h | h
    · exact Or.inl h
    · exact Or.inr h

lemma insertPair_nodup {p : Nat × Nat} {l : List (Nat × Nat)}
    (h : l.Nodup) : (insertPair p l).Nodup := by
  unfold insertPair
  split_ifs with hp
  · exact h
  · exact List.nodup_cons.mpr ⟨hp, h⟩

lemma insertPair_not_mem {p : Nat × Nat} {l : List (Nat × Nat)}
    (h : p ∉ l) : insertPair p l = p :: l := by
  unfold insertPair
  simp [h]

lemma foldl_insertPair_mem {ins acc : List (Nat × Nat)} {q : Nat × Nat}
    (h : q ∈ ins.foldl (fun l p => insertPair p l) acc) : q ∈ ins ∨ q ∈ acc := by
  induction ins generalizing acc with
  | nil => exact Or.inr h
  | cons p rest ih =>
    simp only [List.foldl_cons] at h
    rcases ih h with h' | h'
    · exact Or.inl (List.mem_cons_of_mem _ h')
    · rcases insertPair_mem h' with h'' | h''
      · exact Or.inl (h'' ▸ List.mem_cons_self _ _)
      · exact Or.inr h''

lemma foldl_insertPair_nodup {ins acc : List (Nat × Nat)} (h : acc.Nodup) :
    (ins.foldl (fun l p => insertPair p l) acc).Nodup := by
  induction ins generalizing acc with
  | nil => exact h
  | cons p rest ih => exact ih (insertPair_nodup h)

lemma valsat_self_fst (v : Value) : (valsat v v).1 = true := by
  cases v <;> simp [valsat]

lemma valsat_self_snd {n : Nat} {v : Value} (hv : valRefOk n v = true)
    {p : Nat × Nat} (hp : p ∈ (valsat v v).2) : p.1 = p.2 ∧ p.1 < n := by
  cases v with
  | Unspecified => simp [valsat] at hp
  | Literal m => simp [valsat] at hp
  | Symbol m => simp [valsat] at hp
  | Reference i o =>
    simp [valsat] at hp
    subst hp
    simp only [valRefOk, decide_eq_true_eq] at hv
    exact ⟨rfl, hv⟩

lemma checkSlots_self {n : Nat} (l : List Value)
    (hl : ∀ v ∈ l, valRefOk n v = true) :
    ∀ acc : List (Nat × Nat), DiagOk n acc → acc.Nodup →
      ∃ rc, checkSlots (l.zip l) acc = some rc ∧ DiagOk n rc ∧ rc.Nodup := by
  induction l with
  | nil => exact fun acc hd hn => ⟨acc, rfl, hd, hn⟩
  | cons v rest ih =>
    intro acc hd hn
    have hv : valRefOk n v = true := hl v (List.mem_cons_self _ _)
    rcases hvv : valsat v v with ⟨b, ins⟩
    have hb : b = true := by
      have := valsat_self_fst v
      rw [hvv] at this
      exact this
    subst hb
    have hstep : checkSlots ((v :: rest).zip (v :: rest)) acc =
        checkSlots (rest.zip rest)
          (ins.foldl (fun l p => insertPair p l) acc) := by
      show checkSlots ((v, v) :: rest.zip rest) acc = _
      simp only [checkSlots]
      rw [hvv]
    rw [hstep]
    refine ih (fun w hw => hl w (List.mem_cons_of_mem _ hw)) _ ?_ ?_
    · intro p hp
      rcases foldl_insertPair_mem hp with h' | h'
      · exact valsat_self_snd hv (by rw [hvv]; exact h')
      · exact hd p h'
    · exact foldl_insertPair_nodup hn

lemma checkAlloc_self {n : Nat} (a : List Value)
    (ha : ∀ v ∈ a, valRefOk n v = true) :
    ∀ acc : List (Nat × Nat), DiagOk n acc → acc.Nodup →
      ∃ rc, checkAlloc (a.zip a) acc = (true, rc) ∧ DiagOk n rc ∧ rc.Nodup := by
  induction a with
  | nil => exact fun acc hd hn => ⟨acc, rfl, hd, hn⟩
  | cons v rest ih =>
    intro acc hd hn
    have hv : valRefOk n v = true := ha v (List.mem_cons_self _ _)
    rcases hvv : valsat v v with ⟨b, ins⟩
    have hb : b = true := by
      have := valsat_self_fst v
      rw [hvv] at this
      exact this
    subst hb
    have hstep : checkAlloc ((v :: rest).zip (v :: rest)) acc =
        checkAlloc (rest.zip rest)
          (ins.foldl (fun l p => insertPair p l) acc) := by
      show checkAlloc ((v, v) :: rest.zip rest) acc = _
      simp only [checkAlloc]
      rw [hvv]
    rw [hstep]
    refine ih (fun w hw => ha w (List.mem_cons_of_mem _ hw)) _ ?_ ?_
    · intro p hp
      rcases foldl_insertPair_mem hp with h' | h'
      · exact valsat_self_snd hv (by rw [hvv]; exact h')
      · exact hd p h'
    · exact foldl_insertPair_nodup hn

lemma diag_length_le {n : Nat} {l : List (Nat × Nat)}
    (hd : DiagOk n l) (hn : l.Nodup) : l.length ≤ n := by
  have hmap : (l.map Prod.fst).Nodup := by
    refine List.Nodup.map_on ?_ hn
    intro x hx y hy hxy
    have h1 := (hd x hx).1
    have h2 := (hd y hy).1
    exact Prod.ext hxy (by rw [← h1, ← h2, hxy])
  have hsub : (l.map Prod.fst).toFinset ⊆ Finset.range n := by
    intro x hx
    rw [List.mem_toFinset] at hx
    rcases List.mem_map.mp hx with ⟨p, hp, rfl⟩
    exact Finset.mem_range.mpr (hd p hp).2
  calc l.length = (l.map Prod.fst).length := by rw [List.length_map]
    _ = (l.map Prod.fst).toFinset.card := (List.toFinset_card_of_nodup hmap).symm
    _ ≤ (Finset.range n).card := Finset.card_le_card hsub
    _ = n := Finset.card_range n

lemma valid_register_vals {s : State} (hs : s.is_valid = true) :
    ∀ v ∈ s.registers, valRefOk s.allocations.length v = true := by
  unfold State.is_valid State.refs_in_range at hs
  simp only [Bool.and_eq_true] at hs
  exact fun v hv => List.all_eq_true.mp hs.1.1.1 v hv

lemma valid_alloc_vals {s : State} (hs : s.is_valid = true) :
    ∀ a ∈ s.allocations, ∀ v ∈ a, valRefOk s.allocations.length v = true := by
  unfold State.is_valid State.refs_in_range at hs
  simp only [Bool.and_eq_true] at hs
  exact fun a ha v hv =>
    List.all_eq_true.mp (List.all_eq_true.mp hs.1.1.2 a ha) v hv

lemma valid_flag_vals {s : State} (hs : s.is_valid = true) :
    ∀ v ∈ s.flags, flagOk v = true := by
  unfold State.is_valid State.flags_ok at hs
  simp only [Bool.and_eq_true] at hs
  exact fun v hv => List.all_eq_true.mp hs.2 v hv

lemma flagOk_valRefOk {n : Nat} {v : Value} (h : flagOk v = true) :
    valRefOk n v = true := by
  cases v <;> simp_all [flagOk, valRefOk]

lemma processChecks_self (s : State) (hs : s.is_valid = true) :
    ∀ toCheck rc checked : List (Nat × Nat),
      DiagOk s.allocations.length toCheck → toCheck.Nodup →
      (∀ p ∈ toCheck, p ∉ checked) →
      DiagOk s.allocations.length rc → rc.Nodup →
      DiagOk s.allocations.length checked → checked.Nodup →
      ∃ rc' checked',
        processChecks s s toCheck rc checked = some (true, rc', checked') ∧
          DiagOk s.allocations.length rc' ∧ rc'.Nodup ∧
          DiagOk s.allocations.length checked' ∧ checked'.Nodup ∧
          checked'.length = checked.length + toCheck.length := by
  intro toCheck
  induction toCheck with
  | nil =>
    intro rc checked _ _ _ hrc hrcn hch hchn
    exact ⟨rc, checked, rfl, hrc, hrcn, hch, hchn, by simp⟩
  | cons q rest ih =>
    intro rc checked hd hnd hdisj hrc hrcn hch hchn
    obtain ⟨i, j⟩ := q
    have hq := hd (i, j) (List.mem_cons_self _ _)
    have hij : i = j := hq.1
    subst hij
    have hilt : i < s.allocations.length := hq.2
    have hget : s.allocations.get? i = some (s.allocations.get ⟨i, hilt⟩) :=
      List.get?_eq_get hilt
    have hmem : s.allocations.get ⟨i, hilt⟩ ∈ s.allocations :=
      List.get_mem _ _ _
    obtain ⟨rc1, hrc1, hrc1d, hrc1n⟩ :=
      checkAlloc_self (s.allocations.get ⟨i, hilt⟩)
        (valid_alloc_vals hs _ hmem) rc hrc hrcn
    have hnotmem : (i, i) ∉ checked := hdisj _ (List.mem_cons_self _ _)
    have hstep : processChecks s s ((i, i) :: rest) rc checked =
        processChecks s s rest rc1 ((i, i) :: checked) := by
      simp only [processChecks]
      rw [hget]
      simp only [if_pos rfl]
      rw [hrc1]
      rw [insertPair_not_mem hnotmem]
      simp
    rw [hstep]
    obtain ⟨rc', checked', heq, h1, h2, h3, h4, h5⟩ :=
      ih rc1 ((i, i) :: checked)
        (fun p hp => hd p (List.mem_cons_of_mem _ hp))
        hnd.of_cons
        (fun p hp hmem' => by
          rcases List.mem_cons.mp hmem' with h' | h'
          · exact (List.nodup_cons.mp hnd).1 (h' ▸ hp)
          · exact hdisj p (List.mem_cons_of_mem _ hp) h')
        hrc1d hrc1n
        (fun p hp => by
          rcases List.mem_cons.mp hp with h' | h'
          · exact h' ▸ ⟨rfl, hilt⟩
          · exact hch p h')
        (List.nodup_cons.mpr ⟨hnotmem, hchn⟩)
    refine ⟨rc', checked', heq, h1, h2, h3, h4, ?_⟩
    simp only [List.length_cons] at h5 ⊢
    omega

lemma checkLoop_self (s : State) (hs : s.is_valid = true) :
    ∀ (fuel : Nat) (rc checked : List (Nat × Nat)),
      DiagOk s.allocations.length rc → rc.Nodup →
      DiagOk s.allocations.length checked → checked.Nodup →
      (∀ p ∈ rc, p ∉ checked) →
      s.allocations.length < fuel + checked.length →
      checkLoop s s fuel rc checked = some true := by
  intro fuel
  induction fuel with
  | zero =>
    intro rc checked hrc hrcn hch hchn hdisj hbound
    cases rc with
    | nil => simp [checkLoop]
    | cons q rest =>
      exfalso
      have hq := hrc q (List.mem_cons_self _ _)
      have hlen := diag_length_le
        (l := q :: checked)
        (fun p hp => by
          rcases List.mem_cons.mp hp with h' | h'
          · exact h' ▸ hq
          · exact hch p h')
        (List.nodup_cons.mpr ⟨hdisj q (List.mem_cons_self _ _), hchn⟩)
      simp only [List.length_cons] at hlen
      omega
  | succ fuel ih =>
    intro rc checked hrc hrcn hch hchn hdisj hbound
    cases rc with
    | nil => simp [checkLoop]
    | cons q rest =>
      obtain ⟨rc', checked', heq, h1, h2, h3, h4, h5⟩ :=
        processChecks_self s hs (q :: rest) [] checked hrc hrcn hdisj
          (fun p hp => absurd hp (List.not_mem_nil p)) List.nodup_nil hch hchn
      have hstep : checkLoop s s (fuel + 1) (q :: rest) checked =
          checkLoop s s fuel (rc'.filter fun p => decide (p ∉ checked'))
            checked' := by
        simp only [checkLoop, List.isEmpty_cons, Bool.false_eq_true, if_false]
        rw [heq]
      rw [hstep]
      refine ih _ _ (fun p hp => h1 p (List.mem_filter.mp hp).1)
        (h2.filter _) h3 h4
        (fun p hp => of_decide_eq_true (List.mem_filter.mp hp).2) ?_
      simp only [List.length_cons] at h5
      omega

/-- C5: `satisfies` is reflexive — for every valid state `s`, including
states whose allocations form cyclic reference graphs, `satisfies(s, s)`
returns true (the worklist loop terminates within its fuel and every slot
pair matches itself). -/
theorem satisfies_refl (s : State) (hs : s.is_valid = true) :
    s.satisfies s = some true := by
  unfold State.satisfies
  have hvals : ∀ v ∈ s.registers ++ s.flags,
      valRefOk s.allocations.length v = true := by
    intro v hv
    rcases List.mem_append.mp hv with h | h
    · exact valid_register_vals hs v h
    · exact flagOk_valRefOk (valid_flag_vals hs v h)
  obtain ⟨rc, hrc, hd, hn⟩ :=
    checkSlots_self (s.registers ++ s.flags) hvals []
      (fun p hp => absurd hp (List.not_mem_nil p)) List.nodup_nil
  rw [hrc]
  have hb : s.allocations.length ≤
      s.allocations.length * s.allocations.length := by
    rcases Nat.eq_zero_or_pos s.allocations.length with h | h
    · simp [h]
    · exact Nat.le_mul_of_pos_left _ h
  exact checkLoop_self s hs _ rc [] hd hn
    (fun p hp => absurd hp (List.not_mem_nil p)) List.nodup_nil
    (fun p hp => List.not_mem_nil p) (by simpa using Nat.lt_succ_of_le hb)

/-- C5 witness: reflexivity at a valid state whose single allocation
references itself — a cyclic reference graph. -/
theorem satisfies_refl_witness :
    State.satisfies
        ⟨Value.Reference 0 0 :: List.replicate 15 Value.Unspecified,
          List.replicate 7 Value.Unspecified, [[Value.Reference 0 0]]⟩
        ⟨Value.Reference 0 0 :: List.replicate 15 Value.Unspecified,
          List.replicate 7 Value.Unspecified, [[Value.Reference 0 0]]⟩ =
      some true :=
  satisfies_refl _ (by decide)

lemma checkSlots_no_ref (l : List (Value × Value))
    (h1 : ∀ p ∈ l, isRef p.2 = false)
    (h2 : ∀ p ∈ l, p.2 = Value.Unspecified ∨ p.1 = p.2) :
    checkSlots l [] = some [] := by
  induction l with
  | nil => rfl
  | cons q rest ih =>
    obtain ⟨a, b⟩ := q
    have hr := h1 (a, b) (List.mem_cons_self _ _)
    have hm := h2 (a, b) (List.mem_cons_self _ _)
    have hv : valsat a b = (true, []) := by
      cases b with
      | Unspecified => simp [valsat]
      | Reference i o => simp [isRef] at hr
      | Literal m =>
        rcases hm with hm | hm
        · exact absurd hm (by simp)
        · simp [valsat]
          exact hm
      | Symbol m =>
        rcases hm with hm | hm
        · exact absurd hm (by simp)
        · simp [valsat]
          exact hm
    have hstep : checkSlots ((a, b) :: rest) [] = checkSlots rest [] := by
      simp only [checkSlots]
      rw [hv]
      rfl
    rw [hstep]

    exact ih (fun p hp => h1 p (List.mem_cons_of_mem _ hp))
      (fun p hp => h2 p (List.mem_cons_of_mem _ hp))

/-- C10: `satisfies` only examines goal allocations reachable from the
goal's registers and flags through References — for every valid goal `g`
whose registers and flags hold no Reference and every valid state `s`
whose register and flag slots match `g`'s specified slots, `satisfies(s, g)`
returns true, whatever the allocations of `s` and `g` are. -/
theorem satisfies_skips_unreferenced (s g : State)
    (hs : s.is_valid = true) (hg : g.is_valid = true)
    (hnoref : ∀ v ∈ g.registers ++ g.flags, isRef v = false)
    (hmatch : ∀ p ∈ (s.registers ++ s.flags).zip (g.registers ++ g.flags),
      p.2 = Value.Unspecified ∨ p.1 = p.2) :
    s.satisfies g = some true := by
  unfold State.satisfies
  have h1 : ∀ p ∈ (s.registers ++ s.flags).zip (g.registers ++ g.flags),
      isRef p.2 = false := by
    intro p hp
    obtain ⟨a, b⟩ := p
    exact hnoref b (List.of_mem_zip hp).2
  rw [checkSlots_no_ref _ h1 hmatch]
  simp [checkLoop]

/-- C10 witness: a goal whose two allocations form a closed reference
cycle (referenced only by each other) is satisfied by a valid state with
no allocations at all. -/
theorem satisfies_skips_unreferenced_witness :
    State.satisfies
        ⟨List.replicate 16 Value.Unspecified,
          List.replicate 7 Value.Unspecified, []⟩
        ⟨List.replicate 16 Value.Unspecified,
          List.replicate 7 Value.Unspecified,
          [[Value.Reference 1 0], [Value.Reference 0 0]]⟩ = some true ∧
      (⟨List.replicate 16 Value.Unspecified,
          List.replicate 7 Value.Unspecified, []⟩ : State).allocations = [] :=
  ⟨satisfies_skips_unreferenced _ _ (by decide) (by decide) (by decide)
      (by decide), rfl⟩

lemma all_set {α : Type} {p : α → Bool} {l : List α} {i : Nat} {v : α}
    (hl : l.all p = true) (hv : p v = true) : (l.set i v).all p = true := by
  rw [List.all_eq_true] at hl ⊢
  intro x hx
  rcases List.mem_or_eq_of_mem_set hx with h | h
  · exact hl x h
  · exact h ▸ hv

lemma refs_flags_of_parts {n : Nat} {regs flags : List Value}
    {allocs : List (List Value)}
    (hn : allocs.length = n)
    (h1 : regs.all (valRefOk n) = true)
    (h2 : allocs.all (fun a => a.all (valRefOk n)) = true)
    (h3 : flags.all flagOk = true) :
    (State.mk regs flags allocs).refs_in_range = true ∧
      (State.mk regs flags allocs).flags_ok = true := by
  subst hn
  unfold State.refs_in_range State.flags_ok
  exact ⟨by simp [h1, h2], h3⟩

lemma valRefOk_mono {n m : Nat} (hnm : n ≤ m) {v : Value}
    (h : valRefOk n v = true) : valRefOk m v = true := by
  cases v <;> simp_all [valRefOk] <;> omega

lemma all_valRefOk_mono {n m : Nat} (hnm : n ≤ m) {l : List Value}
    (h : l.all (valRefOk n) = true) : l.all (valRefOk m) = true := by
  rw [List.all_eq_true] at h ⊢
  exact fun x hx => valRefOk_mono hnm (h x hx)

lemma resolve_read_mem {s : State} {r : Nat} {o : Int} {v : Value}
    (h : s.resolve_read r o = some v) : ∃ a ∈ s.allocations, v ∈ a := by
  unfold State.resolve_read at h
  split at h
  · split at h
    · rename_i alloc ha
      split_ifs at h with hneg
      exact ⟨alloc, List.get?_mem ha, List.get?_mem h⟩
    · simp at h
  · simp at h

lemma dropRewrite_refOk {n i : Nat} {v : Value} (hi : i < n)
    (hv : valRefOk n v = true) :
    valRefOk (n - 1) (dropRewrite i (n - 1) v) = true := by
  cases v with
  | Reference j off =>
    simp only [valRefOk, decide_eq_true_eq] at hv
    simp only [dropRewrite]
    split_ifs with h1 h2 <;> simp only [valRefOk, decide_eq_true_eq] <;> omega
  | Unspecified => rfl
  | Literal m => rfl
  | Symbol m => rfl

lemma flagOk_dropRewrite {i last : Nat} {v : Value} (h : flagOk v = true) :
    dropRewrite i last v = v := by
  cases v <;> simp_all [flagOk, dropRewrite]

/-- C2 counterexample: a valid state whose only Reference to allocation 0
sits in register 0; `Set {dest: 0, value: 0}` applies, yet the state after
applying it is invalid — the allocation is orphaned. -/
theorem apply_can_orphan_counterexample :
    State.is_valid
        ⟨Value.Reference 0 0 :: List.replicate 15 Value.Unspecified,
          List.replicate 7 Value.Unspecified, [[Value.Literal 5]]⟩ = true ∧
      Transition.applies (Transition.Set 0 0)
        ⟨Value.Reference 0 0 :: List.replicate 15 Value.Unspecified,
          List.replicate 7 Value.Unspecified, [[Value.Literal 5]]⟩ = true ∧
      Transition.applyM (Transition.Set 0 0)
        ⟨Value.Reference 0 0 :: List.replicate 15 Value.Unspecified,
          List.replicate 7 Value.Unspecified, [[Value.Literal 5]]⟩ =
        some
          ⟨Value.Literal 0 :: List.replicate 15 Value.Unspecified,
            List.replicate 7 Value.Unspecified, [[Value.Literal 5]]⟩ ∧
      State.is_valid
        ⟨Value.Literal 0 :: List.replicate 15 Value.Unspecified,
          List.replicate 7 Value.Unspecified, [[Value.Literal 5]]⟩ = false := by
  decide

/-- C2 (amended): for every valid state `s` and transition `t` with
`t.applies(s)`, if applying `t` (effects modelled from the spec, since
`Transition::apply` is `unimplemented!()`) yields a state `s'`, then every
Reference of `s'` indexes an existing allocation and the flags of `s'` hold
only Unspecified, Symbol, or boolean literals. Full `is_valid` is not
preserved: the transition may orphan an allocation (see the
counterexample), which the source acknowledges in the TODO above
`Transition::applies`. -/
theorem apply_preserves_refs_and_flags (s : State) (t : Transition)
    (s' : State) (hs : s.is_valid = true) (hap : t.applies s = true)
    (happ : t.applyM s = some s') :
    s'.refs_in_range = true ∧ s'.flags_ok = true := by
  have hv := hs
  unfold State.is_valid State.refs_in_range State.flags_ok at hv
  simp only [Bool.and_eq_true] at hv
  obtain ⟨⟨⟨HR, HAall⟩, _⟩, HFall⟩ := hv
  clear hap
  cases t with
  | Set dest value =>
    simp only [Transition.applyM] at happ
    split_ifs at happ with hlt
    rw [Option.some_inj] at happ
    subst happ
    exact refs_flags_of_parts rfl (all_set HR rfl) HAall HFall
  | Copy dest source =>
    simp only [Transition.applyM] at happ
    cases hg : s.registers.get? source with
    | none => rw [hg] at happ; simp at happ
    | some v =>
      rw [hg] at happ
      split_ifs at happ with hlt
      rw [Option.some_inj] at happ
      subst happ
      exact refs_flags_of_parts rfl
        (all_set HR (List.all_eq_true.mp HR v (List.get?_mem hg))) HAall HFall
  | Swap dest source =>
    simp only [Transition.applyM] at happ
    cases hd : s.registers.get? dest with
    | none => rw [hd] at happ; simp at happ
    | some vd =>
      cases hsrc : s.registers.get? source with
      | none => rw [hd, hsrc] at happ; simp at happ
      | some vs =>
        rw [hd, hsrc] at happ
        rw [Option.some_inj] at happ
        subst happ
        exact refs_flags_of_parts rfl
          (all_set (all_set HR (List.all_eq_true.mp HR vs (List.get?_mem hsrc)))
            (List.all_eq_true.mp HR vd (List.get?_mem hd)))
          HAall HFall
  | Read dest source offset =>
    simp only [Transition.applyM] at happ
    cases hr : s.resolve_read source offset with
    | none => rw [hr] at happ; simp at happ
    | some v =>
      rw [hr] at happ
      split_ifs at happ with hlt
      rw [Option.some_inj] at happ
      subst happ
      obtain ⟨a, ha, hva⟩ := resolve_read_mem hr
      exact refs_flags_of_parts rfl
        (all_set HR
          (List.all_eq_true.mp (List.all_eq_true.mp HAall a ha) v hva))
        HAall HFall
  | Write dest offset source =>
    simp only [Transition.applyM] at happ
    split at happ
    · rename_i vs index roffset hsrc hd
      split at happ
      · rename_i alloc ha
        split_ifs at happ with hneg hlen
        rw [Option.some_inj] at happ
        subst happ
        refine refs_flags_of_parts (List.length_set _ _ _) HR ?_ HFall
        refine all_set HAall ?_
        exact all_set (List.all_eq_true.mp HAall alloc (List.get?_mem ha))
          (List.all_eq_true.mp HR vs (List.get?_mem hsrc))
      · simp at happ
    · simp at happ
  | Alloc dest size =>
    simp only [Transition.applyM] at happ
    split_ifs at happ with hlt
    rw [Option.some_inj] at happ
    subst happ
    have hlen : (s.allocations ++ [List.replicate size Value.Unspecified]).length
        = s.allocations.length + 1 := by simp
    refine refs_flags_of_parts hlen ?_ ?_ HFall
    · refine all_set (all_valRefOk_mono (Nat.le_succ _) HR) ?_
      simp [valRefOk]
    · rw [List.all_eq_true]
      intro a ha
      rcases List.mem_append.mp ha with h | h
      · exact all_valRefOk_mono (Nat.le_succ _)
          (List.all_eq_true.mp HAall a h)
      · rw [List.mem_singleton.mp h, List.all_eq_true]
        intro x hx
        rw [List.eq_of_mem_replicate hx]
        rfl
  | Drop dest =>
    simp only [Transition.applyM] at happ
    split at happ
    · rename_i i off hd
      split at happ
      · rename_i lastAlloc hlast
        split_ifs at happ with hi
        rw [Option.some_inj] at happ
        subst happ
        have hlen :
            (((s.allocations.set i lastAlloc).dropLast).map fun a =>
                a.map (dropRewrite i (s.allocations.length - 1))).length =
              s.allocations.length - 1 := by
          simp
        have hmemalloc : ∀ a, a ∈ (s.allocations.set i lastAlloc).dropLast →
            a ∈ s.allocations := by
          intro a ha
          rcases List.mem_or_eq_of_mem_set (List.mem_of_mem_dropLast ha)
            with h | h
          · exact h
          · exact h ▸ List.get?_mem hlast
        refine refs_flags_of_parts hlen ?_ ?_ ?_
        · rw [List.all_eq_true]
          intro x hx
          rcases List.mem_map.mp hx with ⟨w, hw, rfl⟩
          exact dropRewrite_refOk hi (List.all_eq_true.mp HR w hw)
        · rw [List.all_eq_true]
          intro a' ha'
          rcases List.mem_map.mp ha' with ⟨a, ha, rfl⟩
          rw [List.all_eq_true]
          intro x hx
          rcases List.mem_map.mp hx with ⟨w, hw, rfl⟩
          exact dropRewrite_refOk hi
            (List.all_eq_true.mp
              (List.all_eq_true.mp HAall a (hmemalloc a ha)) w hw)
        · rw [List.all_eq_true]
          intro x hx
          rcases List.mem_map.mp hx with ⟨w, hw, rfl⟩
          have hfw := List.all_eq_true.mp HFall w hw
          rw [flagOk_dropRewrite hfw]
          exact hfw
      · simp at happ
    · simp at happ

/-- C2 witness: the amended statement at the empty valid state and
`Set {dest: 0, value: 5}`. -/
theorem apply_preserves_refs_and_flags_witness :
    State.refs_in_range
        ⟨Value.Literal 5 :: List.replicate 15 Value.Unspecified,
          List.replicate 7 Value.Unspecified, []⟩ = true ∧
      State.flags_ok
        ⟨Value.Literal 5 :: List.replicate 15 Value.Unspecified,
          List.replicate 7 Value.Unspecified, []⟩ = true :=
  apply_preserves_refs_and_flags
    ⟨List.replicate 16 Value.Unspecified, List.replicate 7 Value.Unspecified,
      []⟩
    (Transition.Set 0 5) _ (by decide) (by decide) (by decide)

/-- C3: evidence that `Transition::applies` for `Write {dest: 0, offset: 0,
source: 1}` validates the wrong register: in this valid state register 0
(the dest) holds no Reference and resolves to nothing, yet `applies`
returns true because register 1 (the source) holds a Reference that
resolves — the claim's biconditional is false on this input. -/
theorem write_applies_checks_source_not_dest :
    Transition.applies (Transition.Write 0 0 1)
        ⟨Value.Unspecified :: Value.Reference 0 0 ::
            List.replicate 14 Value.Unspecified,
          List.replicate 7 Value.Unspecified, [[Value.Literal 5]]⟩ = true ∧
      State.resolve_read
        ⟨Value.Unspecified :: Value.Reference 0 0 ::
            List.replicate 14 Value.Unspecified,
          List.replicate 7 Value.Unspecified, [[Value.Literal 5]]⟩ 0 0 =
        none ∧
      isRef
        (State.regD
          ⟨Value.Unspecified :: Value.Reference 0 0 ::
              List.replicate 14 Value.Unspecified,
            List.replicate 7 Value.Unspecified, [[Value.Literal 5]]⟩ 0) =
        false ∧
      State.is_valid
        ⟨Value.Unspecified :: Value.Reference 0 0 ::
            List.replicate 14 Value.Unspecified,
          List.replicate 7 Value.Unspecified, [[Value.Literal 5]]⟩ = true := by
  decide

/-- C4: evidence that `min_distance` is not admissible: from the valid
state with Symbol 1, Symbol 2 in registers 0, 1 the single applicable
transition `Swap {dest: 1, source: 0}` (cost 603) reaches a state that
satisfies the goal with those registers exchanged, yet
`min_distance` returns 606 > 603 (it charges each mis-set register a full
Copy/Swap of its own). -/
theorem min_distance_not_admissible :
    State.is_valid
        ⟨Value.Symbol 1 :: Value.Symbol 2 ::
            List.replicate 14 Value.Unspecified,
          List.replicate 7 Value.Unspecified, []⟩ = true ∧
      State.is_valid
        ⟨Value.Symbol 2 :: Value.Symbol 1 ::
            List.replicate 14 Value.Unspecified,
          List.replicate 7 Value.Unspecified, []⟩ = true ∧
      Transition.applies (Transition.Swap 1 0)
        ⟨Value.Symbol 1 :: Value.Symbol 2 ::
            List.replicate 14 Value.Unspecified,
          List.replicate 7 Value.Unspecified, []⟩ = true ∧
      Transition.applyM (Transition.Swap 1 0)
        ⟨Value.Symbol 1 :: Value.Symbol 2 ::
            List.replicate 14 Value.Unspecified,
          List.replicate 7 Value.Unspecified, []⟩ =
        some
          ⟨Value.Symbol 2 :: Value.Symbol 1 ::
              List.replicate 14 Value.Unspecified,
            List.replicate 7 Value.Unspecified, []⟩ ∧
      State.satisfies
        ⟨Value.Symbol 2 :: Value.Symbol 1 ::
            List.replicate 14 Value.Unspecified,
          List.replicate 7 Value.Unspecified, []⟩
        ⟨Value.Symbol 2 :: Value.Symbol 1 ::
            List.replicate 14 Value.Unspecified,
          List.replicate 7 Value.Unspecified, []⟩ = some true ∧
      Transition.cost (Transition.Swap 1 0) = some 603 ∧
      State.min_distance
        ⟨Value.Symbol 1 :: Value.Symbol 2 ::
            List.replicate 14 Value.Unspecified,
          List.replicate 7 Value.Unspecified, []⟩
        ⟨Value.Symbol 2 :: Value.Symbol 1 ::
            List.replicate 14 Value.Unspecified,
          List.replicate 7 Value.Unspecified, []⟩ = some 606 ∧
      603 < 606 := by
  decide

end Machine
